import Mathlib

/-!
Verification of the genrl repository: the contextual UCB bandit policy
(`genrl/classical/bandit/contextual_policies/ucb.py`), the A2C agent's loss
and action-selection computations (`genrl/deep/agents/a2c/a2c.py`) and the
value-network builder (`genrl/deep/common/values.py`).

Array-valued fields of `UCBCBPolicy` are embedded as functions `ℕ → ℕ → _`
together with the fixed shape `(numContexts, numArms)`; floating point
arithmetic of the update path is embedded as exact rational arithmetic, and
the transcendental score of `select_action` as real arithmetic.
-/

namespace Genrl

/-- State of a `UCBCBPolicy`: shape parameters, the confidence weight `_c`,
the `_quality` and `_counts` arrays (functions over indices), the cumulative
regret and the three history lists kept by the base `CBPolicy`. -/
structure UCBState where
  numContexts : ℕ
  numArms : ℕ
  confidence : ℚ
  quality : ℕ → ℕ → ℚ
  counts : ℕ → ℕ → ℕ
  regret : ℚ
  rewardHist : List ℚ
  regretHist : List ℚ
  actionHist : List (ℕ × ℕ)

/-- The freshly constructed policy: `np.zeros` quality and counts, zero
regret, empty histories. -/
def initState (numContexts numArms : ℕ) (confidence : ℚ) : UCBState :=
  { numContexts := numContexts
    numArms := numArms
    confidence := confidence
    quality := fun _ _ => 0
    counts := fun _ _ => 0
    regret := 0
    rewardHist := []
    regretHist := []
    actionHist := [] }

/-- Python's `max` over the first `n` entries of a row `f`
(`max(self.quality[context])`). On an empty row (`n = 0`) Python raises;
the value returned there is junk. -/
def rowMax (f : ℕ → ℚ) : ℕ → ℚ
  | 0 => f 0
  | n + 1 => max (rowMax f n) (f n)

/-- First index of a maximal value among `f 0, …, f (n-1)`: `np.argmax`,
which keeps the earlier index on ties. -/
def argmaxFirst {α : Type} [LinearOrder α] (f : ℕ → α) : ℕ → ℕ
  | 0 => 0
  | n + 1 => if f (argmaxFirst f n) < f n then n else argmaxFirst f n

/-- The UCB score of arm `a` in context `c` at timestep `t`:
`quality[c,a] + confidence * sqrt(2 * log(t+1) / (counts[c,a] + 1))`. -/
noncomputable def score (s : UCBState) (c t a : ℕ) : ℝ :=
  (s.quality c a : ℝ) +
    (s.confidence : ℝ) *
      Real.sqrt (2 * Real.log ((t : ℝ) + 1) / ((s.counts c a : ℝ) + 1))

/-- `UCBCBPolicy.select_action`: the argmax of the score row. -/
noncomputable def selectAction (s : UCBState) (c t : ℕ) : ℕ :=
  argmaxFirst (score s c t) s.numArms

/-- `UCBCBPolicy.select_action` including its side effect: the chosen action
is appended (with its context) to `action_hist`, and the action returned. -/
noncomputable def selectActionStep (s : UCBState) (c t : ℕ) : ℕ × UCBState :=
  (selectAction s c t,
    { s with actionHist := s.actionHist ++ [(c, selectAction s c t)] })

/-- `UCBCBPolicy.update_params`: append the reward, add the pre-update
regret increment `max(quality[context]) - quality[context, action]`, append
the new regret, move `quality[context, action]` towards the reward by the
incremental-mean step, and increment `counts[context, action]`. -/
def updateParams (s : UCBState) (context action : ℕ) (reward : ℚ) : UCBState :=
  let regretNew :=
    s.regret + (rowMax (s.quality context) s.numArms - s.quality context action)
  { s with
    rewardHist := s.rewardHist ++ [reward]
    regret := regretNew
    regretHist := s.regretHist ++ [regretNew]
    quality := fun c a =>
      if c = context ∧ a = action then
        s.quality context action +
          (reward - s.quality context action) / ((s.counts context action : ℚ) + 1)
      else s.quality c a
    counts := fun c a =>
      if c = context ∧ a = action then s.counts context action + 1
      else s.counts c a }

/-- A sequence of `update_params` calls, each a `(context, action, reward)`
triple, applied left to right. -/
def runUpdates (s : UCBState) (ops : List (ℕ × ℕ × ℚ)) : UCBState :=
  ops.foldl (fun s p => updateParams s p.1 p.2.1 p.2.2) s

/-- The rewards of the calls of `ops` that address the pair `(c, a)`,
in order. -/
def hits (c a : ℕ) (ops : List (ℕ × ℕ × ℚ)) : List ℚ :=
  ops.filterMap (fun p => if p.1 = c ∧ p.2.1 = a then some p.2.2 else none)

/-- A concrete policy state used to instantiate hypotheses of the theorems
below: 2 contexts, 3 arms, confidence 1, one update already taken at
`(0, 0)` with reward 2. -/
def exState : UCBState := updateParams (initState 2 3 1) 0 0 2

/-- The documentation scenario: `numContexts = 1`, `numArms = 2`,
`confidence = 1`, then `update_params(0, 0, 1.0)` followed by
`update_params(0, 1, 0.0)`. -/
def ucbScenario : UCBState :=
  updateParams (updateParams (initState 1 2 1) 0 0 1) 0 1 0

/-! ### A2C (`genrl/deep/agents/a2c/a2c.py`) -/

/-- `torch.mean` of a 1-d tensor, embedded as sum over length. -/
noncomputable def torchMean (l : List ℝ) : ℝ := l.sum / l.length

/-- A minibatch yielded by `RolloutBuffer.get` inside `update_policy`,
reduced to the four tensors the losses read, elementwise. -/
structure Minibatch where
  advantages : List ℝ
  logProbs : List ℝ
  returns : List ℝ
  values : List ℝ

/-- `policy_loss = -torch.mean(rollout.advantages * log_prob)`. -/
noncomputable def policyLoss (mb : Minibatch) : ℝ :=
  -torchMean (List.zipWith (· * ·) mb.advantages mb.logProbs)

/-- `F.mse_loss` with its default mean reduction. -/
noncomputable def mseLoss (a b : List ℝ) : ℝ :=
  torchMean (List.zipWith (fun x y => (x - y) ^ 2) a b)

/-- `value_loss = self.value_coeff * F.mse_loss(rollout.returns, values)`. -/
noncomputable def valueLoss (valueCoeff : ℝ) (mb : Minibatch) : ℝ :=
  valueCoeff * mseLoss mb.returns mb.values

/-- `entropy_loss = (torch.exp(log_prob) * log_prob).sum()`. -/
noncomputable def entropyLoss (mb : Minibatch) : ℝ :=
  (mb.logProbs.map (fun x => Real.exp x * x)).sum

/-- `actor_loss = policy_loss + self.entropy_coeff * entropy_loss`. -/
noncomputable def actorLoss (entropyCoeff : ℝ) (mb : Minibatch) : ℝ :=
  policyLoss mb + entropyCoeff * entropyLoss mb

/-- The spec's formula `-mean(advantage * log_prob)`, written from the
spec's words to compare with the source-derived `policyLoss`. -/
noncomputable def specPolicyLoss (advantage logProb : List ℝ) : ℝ :=
  -((List.zipWith (· * ·) advantage logProb).sum /
      (List.zipWith (· * ·) advantage logProb).length)

/-- The spec's formula `valueCoeff * meanSquaredError(return, value)`,
written from the spec's words. -/
noncomputable def specValueLoss (valueCoeff : ℝ) (ret value : List ℝ) : ℝ :=
  valueCoeff *
    ((List.zipWith (fun x y => (x - y) ^ 2) ret value).sum /
      (List.zipWith (fun x y => (x - y) ^ 2) ret value).length)

/-- The spec's formula `sum(exp(log_prob) * log_prob)`, written from the
spec's words. -/
noncomputable def specEntropyLoss (logProb : List ℝ) : ℝ :=
  (logProb.map (fun x => Real.exp x * x)).sum

/-- An actor-critic pair over abstract state and action types.
Modelled from the spec: the networks behind `self.ac` live in
`genrl/deep/common/base.py`, which is not part of the sources; per the spec,
`get_action(state, deterministic)` samples from the actor's output
distribution or takes its deterministic mode, `get_value` evaluates the
critic, and the returned distribution gives log-probabilities. -/
structure ActorCritic (S A : Type) where
  sample : S → A
  mode : S → A
  value : S → ℝ
  logProb : S → A → ℝ

/-- Modelled from the spec: `self.ac.get_action(state, deterministic)`
(from `genrl/deep/common/base.py`, not in the sources) samples when
`deterministic` is false and takes the distribution's mode when it is
true. -/
def getAction {S A : Type} (ac : ActorCritic S A) (state : S)
    (deterministic : Bool) : A :=
  if deterministic then ac.mode state else ac.sample state

/-- `A2C.select_action` as written in `a2c.py`: it calls
`self.ac.get_action(state, deterministic=False)` — the literal `False` of
the source, not the `deterministic` argument — evaluates the critic at the
same state, and returns `(action, value, log_prob(action))`. -/
def a2cSelectAction {S A : Type} (ac : ActorCritic S A) (state : S)
    (deterministic : Bool) : A × ℝ × ℝ :=
  let action := getAction ac state false
  (action, ac.value state, ac.logProb state action)

/-- A concrete actor-critic over `Unit` states and `Bool` actions whose
sampled action differs from its deterministic mode. -/
def exAC : ActorCritic Unit Bool :=
  { sample := fun _ => true
    mode := fun _ => false
    value := fun _ => 0
    logProb := fun _ _ => 0 }

/-! ### Value-network builder (`genrl/deep/common/values.py`) -/

/-- `_get_val_model`: the layer-size list handed to the network
constructor, `none` when the `val_type` tag is unsupported (the source
raises `ValueError` there). `state_dim`, `action_dim` and `hidden` are the
corresponding arguments; the architecture only consumes the size list. -/
def getValModel (valType : String) (stateDim : ℕ) (hidden : List ℕ)
    (actionDim : ℕ) : Option (List ℕ) :=
  if valType = "V" then some ([stateDim] ++ hidden ++ [1])
  else if valType = "Qsa" then some ([stateDim + actionDim] ++ hidden ++ [1])
  else if valType = "Qs" then some ([stateDim] ++ hidden ++ [actionDim])
  else none

/-! The lemmas below establish the behaviour of the two folds used by the
UCB policy: the first-max `argmaxFirst` and the row maximum `rowMax`. -/

theorem argmaxFirst_lt {α : Type} [LinearOrder α] (f : ℕ → α) :
    ∀ n, 0 < n → argmaxFirst f n < n := by
  intro n hn
  induction n with
  | zero => exact absurd hn (lt_irrefl 0)
  | succ n ih =>
    simp only [argmaxFirst]
    by_cases h : f (argmaxFirst f n) < f n
    · rw [if_pos h]; exact Nat.lt_succ_self n
    · rw [if_neg h]
      rcases Nat.eq_zero_or_pos n with h0 | hpos
      · subst h0; simp [argmaxFirst]
      · exact Nat.lt_succ_of_lt (ih hpos)

theorem le_argmaxFirst {α : Type} [LinearOrder α] (f : ℕ → α) :
    ∀ n, ∀ i, i < n → f i ≤ f (argmaxFirst f n) := by
  intro n
  induction n with
  | zero => intro i hi; exact absurd hi (Nat.not_lt_zero i)
  | succ n ih =>
    intro i hi
    simp only [argmaxFirst]
    by_cases h : f (argmaxFirst f n) < f n
    · rw [if_pos h]
      rcases Nat.lt_succ_iff_lt_or_eq.mp hi with hlt | rfl
      · exact le_of_lt (lt_of_le_of_lt (ih i hlt) h)
      · exact le_rfl
    · rw [if_neg h]
      rcases Nat.lt_succ_iff_lt_or_eq.mp hi with hlt | rfl
      · exact ih i hlt
      · exact not_lt.mp h

theorem argmaxFirst_first {α : Type} [LinearOrder α] (f : ℕ → α) :
    ∀ n, ∀ i, i < argmaxFirst f n → f i < f (argmaxFirst f n) := by
  intro n
  induction n with
  | zero =>
    intro i hi
    simp only [argmaxFirst] at hi
    exact absurd hi (Nat.not_lt_zero i)
  | succ n ih =>
    intro i
    simp only [argmaxFirst]
    by_cases h : f (argmaxFirst f n) < f n
    · rw [if_pos h]
      intro hi
      exact lt_of_le_of_lt (le_argmaxFirst f n i hi) h
    · rw [if_neg h]
      exact ih i

theorem le_rowMax (f : ℕ → ℚ) : ∀ n, ∀ i, i < n → f i ≤ rowMax f n := by
  intro n
  induction n with
  | zero => intro i hi; exact absurd hi (Nat.not_lt_zero i)
  | succ n ih =>
    intro i hi
    simp only [rowMax]
    rcases Nat.lt_succ_iff_lt_or_eq.mp hi with hlt | rfl
    · exact le_max_of_le_left (ih i hlt)
    · exact le_max_right _ _

theorem rowMax_mem (f : ℕ → ℚ) : ∀ n, 0 < n → ∃ i, i < n ∧ rowMax f n = f i := by
  intro n hn
  induction n with
  | zero => exact absurd hn (lt_irrefl 0)
  | succ n ih =>
    rcases Nat.eq_zero_or_pos n with h0 | hpos
    · subst h0
      exact ⟨0, Nat.zero_lt_one, by simp [rowMax]⟩
    · obtain ⟨i, hi, heq⟩ := ih hpos
      simp only [rowMax]
      rcases max_cases (rowMax f n) (f n) with ⟨h1, _⟩ | ⟨h1, _⟩
      · exact ⟨i, Nat.lt_succ_of_lt hi, by rw [h1, heq]⟩
      · exact ⟨n, Nat.lt_succ_self n, h1⟩

/-! Effect of a single `update_params` call on one cell. -/

theorem updateParams_counts_self (s : UCBState) (c a : ℕ) (r : ℚ) :
    (updateParams s c a r).counts c a = s.counts c a + 1 := by
  simp [updateParams]

theorem updateParams_quality_self (s : UCBState) (c a : ℕ) (r : ℚ) :
    (updateParams s c a r).quality c a =
      s.quality c a + (r - s.quality c a) / ((s.counts c a : ℚ) + 1) := by
  simp [updateParams]

theorem updateParams_counts_other (s : UCBState) (c a : ℕ) (r : ℚ)
    (c' a' : ℕ) (h : ¬(c' = c ∧ a' = a)) :
    (updateParams s c a r).counts c' a' = s.counts c' a' := by
  simp only [updateParams]
  rw [if_neg h]

theorem updateParams_quality_other (s : UCBState) (c a : ℕ) (r : ℚ)
    (c' a' : ℕ) (h : ¬(c' = c ∧ a' = a)) :
    (updateParams s c a r).quality c' a' = s.quality c' a' := by
  simp only [updateParams]
  rw [if_neg h]

/-- Fold form of the incremental-mean invariant: over any sequence of
calls, the count at `(c, a)` grows by the number of calls addressed to
`(c, a)`, and `quality * count` grows by the sum of their rewards. -/
theorem runUpdates_cell (c a : ℕ) :
    ∀ (ops : List (ℕ × ℕ × ℚ)) (s : UCBState),
      (runUpdates s ops).counts c a = s.counts c a + (hits c a ops).length ∧
      (runUpdates s ops).quality c a *
          ((s.counts c a : ℚ) + ((hits c a ops).length : ℚ)) =
        s.quality c a * (s.counts c a : ℚ) + (hits c a ops).sum := by
  intro ops
  induction ops with
  | nil => intro s; simp [runUpdates, hits]
  | cons p ops ih =>
    intro s
    obtain ⟨pc, pa, pr⟩ := p
    have hrun : runUpdates s ((pc, pa, pr) :: ops) =
        runUpdates (updateParams s pc pa pr) ops := rfl
    by_cases hp : pc = c ∧ pa = a
    · obtain ⟨rfl, rfl⟩ := hp
      have hhits : hits pc pa ((pc, pa, pr) :: ops) = pr :: hits pc pa ops := by
        simp [hits]
      obtain ⟨ihc, ihq⟩ := ih (updateParams s pc pa pr)
      have hcnt : (updateParams s pc pa pr).counts pc pa = s.counts pc pa + 1 :=
        updateParams_counts_self s pc pa pr
      have hql : (updateParams s pc pa pr).quality pc pa =
          s.quality pc pa + (pr - s.quality pc pa) / ((s.counts pc pa : ℚ) + 1) :=
        updateParams_quality_self s pc pa pr
      constructor
      · rw [hrun, ihc, hcnt, hhits]
        simp [Nat.add_assoc, Nat.add_comm 1]
      · rw [hrun, hhits]
        simp only [List.length_cons, List.sum_cons]
        have hk : ((s.counts pc pa : ℚ) + 1) ≠ 0 := by positivity
        have hstep : (updateParams s pc pa pr).quality pc pa *
            ((s.counts pc pa : ℚ) + 1) =
            s.quality pc pa * (s.counts pc pa : ℚ) + pr := by
          rw [hql]
          field_simp
          ring
        have := ihq
        rw [hcnt] at this
        push_cast at this ⊢
        calc (runUpdates (updateParams s pc pa pr) ops).quality pc pa *
              ((s.counts pc pa : ℚ) + (((hits pc pa ops).length : ℚ) + 1))
            = (runUpdates (updateParams s pc pa pr) ops).quality pc pa *
              (((s.counts pc pa : ℚ) + 1) + ((hits pc pa ops).length : ℚ)) := by
              ring
          _ = (updateParams s pc pa pr).quality pc pa *
              (((s.counts pc pa : ℚ) + 1)) + (hits pc pa ops).sum := by
              linear_combination this
          _ = s.quality pc pa * (s.counts pc pa : ℚ) + pr + (hits pc pa ops).sum := by
              rw [hstep]
          _ = s.quality pc pa * (s.counts pc pa : ℚ) +
              (pr + (hits pc pa ops).sum) := by ring
    · have hhits : hits c a ((pc, pa, pr) :: ops) = hits c a ops := by
        simp only [hits, List.filterMap_cons]
        rw [if_neg (by tauto)]
      have hcnt : (updateParams s pc pa pr).counts c a = s.counts c a :=
        updateParams_counts_other s pc pa pr c a (by tauto)
      have hql : (updateParams s pc pa pr).quality c a = s.quality c a :=
        updateParams_quality_other s pc pa pr c a (by tauto)
      obtain ⟨ihc, ihq⟩ := ih (updateParams s pc pa pr)
      rw [hcnt] at ihc
      rw [hcnt, hql] at ihq
      exact ⟨by rw [hrun, ihc, hhits], by rw [hrun, hhits]; exact ihq⟩

theorem updateParams_regret (s : UCBState) (c a : ℕ) (r : ℚ) :
    (updateParams s c a r).regret =
      s.regret + (rowMax (s.quality c) s.numArms - s.quality c a) := by
  simp [updateParams]

theorem updateParams_regretHist (s : UCBState) (c a : ℕ) (r : ℚ) :
    (updateParams s c a r).regretHist =
      s.regretHist ++ [(updateParams s c a r).regret] := by
  simp [updateParams]

theorem regret_step_mono (s : UCBState) (c a : ℕ) (r : ℚ)
    (ha : a < s.numArms) : s.regret ≤ (updateParams s c a r).regret := by
  rw [updateParams_regret]
  have h := le_rowMax (s.quality c) s.numArms a ha
  linarith

theorem chain_snoc_le (l : List ℚ) (x y : ℚ) (hxy : x ≤ y)
    (h : List.Chain' (fun u v => u ≤ v) (l ++ [x])) :
    List.Chain' (fun u v => u ≤ v) (l ++ [y] ++ [y]) := by
  rw [List.chain'_append] at h
  obtain ⟨hl, _, hlast⟩ := h
  rw [List.append_assoc, List.chain'_append]
  refine ⟨hl, ?_, ?_⟩
  · simp
  · intro u hu v hv
    simp only [List.cons_append, List.nil_append, List.head?_cons,
      Option.mem_def, Option.some.injEq] at hv
    subst hv
    exact le_trans (hlast u hu x (by simp)) hxy

/-- Along any sequence of in-range `update_params` calls, the regret
history followed by the current regret stays a nondecreasing chain. -/
theorem regret_chain_aux :
    ∀ (ops : List (ℕ × ℕ × ℚ)) (s : UCBState),
      (∀ p ∈ ops, p.2.1 < s.numArms) →
      List.Chain' (fun u v => u ≤ v) (s.regretHist ++ [s.regret]) →
      List.Chain' (fun u v => u ≤ v)
        ((runUpdates s ops).regretHist ++ [(runUpdates s ops).regret]) := by
  intro ops
  induction ops with
  | nil => intro s _ h; exact h
  | cons p ops ih =>
    intro s hops h
    obtain ⟨pc, pa, pr⟩ := p
    have ha : pa < s.numArms := hops (pc, pa, pr) (List.mem_cons_self _ _)
    have hrun : runUpdates s ((pc, pa, pr) :: ops) =
        runUpdates (updateParams s pc pa pr) ops := rfl
    rw [hrun]
    apply ih
    · intro q hq
      exact hops q (List.mem_cons_of_mem _ hq)
    · rw [updateParams_regretHist]
      exact chain_snoc_le s.regretHist s.regret _
        (regret_step_mono s pc pa pr ha) h

theorem sum_zipWith_mul_zero (l1 l2 : List ℝ) (h : ∀ x ∈ l1, x = 0) :
    (List.zipWith (· * ·) l1 l2).sum = 0 := by
  induction l1 generalizing l2 with
  | nil => simp
  | cons x xs ih =>
    cases l2 with
    | nil => simp
    | cons y ys =>
      simp only [List.zipWith_cons_cons, List.sum_cons]
      rw [h x (List.mem_cons_self x xs),
        ih ys (fun z hz => h z (List.mem_cons_of_mem x hz)), zero_mul, zero_add]

/-- C1: for every context `c` in `[0, numContexts)` and timestep `t ≥ 0`,
`select_action(c, t)` returns the action maximising
`quality[c,a] + confidence * sqrt(2 * ln(t+1) / (counts[c,a] + 1))`,
breaking ties by the lowest action index, and the returned index lies in
`[0, numArms)`. -/
theorem ucb_select_action_argmax (s : UCBState) (c t : ℕ)
    (hc : c < s.numContexts) (hn : 0 < s.numArms) :
    selectAction s c t < s.numArms ∧
    (∀ b, b < s.numArms → score s c t b ≤ score s c t (selectAction s c t)) ∧
    (∀ b, b < selectAction s c t →
      score s c t b < score s c t (selectAction s c t)) := by
  refine ⟨argmaxFirst_lt (score s c t) s.numArms hn,
    fun b hb => le_argmaxFirst (score s c t) s.numArms b hb,
    fun b hb => argmaxFirst_first (score s c t) s.numArms b hb⟩

theorem ucb_select_action_argmax_witness :
    0 < exState.numContexts ∧ 0 < exState.numArms ∧
    (selectAction exState 0 5 < exState.numArms ∧
     (∀ b, b < exState.numArms →
       score exState 0 5 b ≤ score exState 0 5 (selectAction exState 0 5)) ∧
     (∀ b, b < selectAction exState 0 5 →
       score exState 0 5 b < score exState 0 5 (selectAction exState 0 5))) :=
  ⟨by decide, by decide, ucb_select_action_argmax exState 0 5 (by decide) (by decide)⟩

/-- C2: `update_params(c, a, r)` appends `r` to the reward history, adds
`max(quality[c,·]) - quality[c,a]` — taken on the pre-update quality row —
to the cumulative regret, appends the new regret to the regret history,
moves `quality[c,a]` by `(r - quality[c,a]) / (counts[c,a] + 1)` and
increments `counts[c,a]`. -/
theorem ucb_update_params_effects (s : UCBState) (c a : ℕ) (r : ℚ)
    (ha : a < s.numArms) :
    (updateParams s c a r).rewardHist = s.rewardHist ++ [r] ∧
    (∃ m, (∀ b, b < s.numArms → s.quality c b ≤ m) ∧
      (∃ b, b < s.numArms ∧ m = s.quality c b) ∧
      (updateParams s c a r).regret = s.regret + (m - s.quality c a)) ∧
    (updateParams s c a r).regretHist =
      s.regretHist ++ [(updateParams s c a r).regret] ∧
    (updateParams s c a r).quality c a =
      s.quality c a + (r - s.quality c a) / ((s.counts c a : ℚ) + 1) ∧
    (updateParams s c a r).counts c a = s.counts c a + 1 := by
  have hn : 0 < s.numArms := lt_of_le_of_lt (Nat.zero_le a) ha
  obtain ⟨i, hi, heq⟩ := rowMax_mem (s.quality c) s.numArms hn
  refine ⟨by simp [updateParams],
    ⟨rowMax (s.quality c) s.numArms,
      fun b hb => le_rowMax (s.quality c) s.numArms b hb,
      ⟨i, hi, heq⟩, updateParams_regret s c a r⟩,
    updateParams_regretHist s c a r,
    updateParams_quality_self s c a r,
    updateParams_counts_self s c a r⟩

theorem ucb_update_params_effects_witness :
    1 < exState.numArms ∧
    ((updateParams exState 0 1 5).rewardHist = exState.rewardHist ++ [5] ∧
     (∃ m, (∀ b, b < exState.numArms → exState.quality 0 b ≤ m) ∧
       (∃ b, b < exState.numArms ∧ m = exState.quality 0 b) ∧
       (updateParams exState 0 1 5).regret =
         exState.regret + (m - exState.quality 0 1)) ∧
     (updateParams exState 0 1 5).regretHist =
       exState.regretHist ++ [(updateParams exState 0 1 5).regret] ∧
     (updateParams exState 0 1 5).quality 0 1 =
       exState.quality 0 1 +
         (5 - exState.quality 0 1) / ((exState.counts 0 1 : ℚ) + 1) ∧
     (updateParams exState 0 1 5).counts 0 1 = exState.counts 0 1 + 1) :=
  ⟨by decide, ucb_update_params_effects exState 0 1 5 (by decide)⟩

/-- C3: each minibatch step of `A2C.update_policy` computes
`policy_loss = -mean(advantage * log_prob)`,
`value_loss = value_coeff * mse(return, value)`,
`entropy_loss = sum(exp(log_prob) * log_prob)` and
`actor_loss = policy_loss + entropy_coeff * entropy_loss` on every
minibatch; in the particular case of all-zero advantages the policy loss
is exactly 0 regardless of the log-probabilities. -/
theorem a2c_update_policy_losses (valueCoeff entropyCoeff : ℝ)
    (mb : Minibatch) :
    policyLoss mb = specPolicyLoss mb.advantages mb.logProbs ∧
    valueLoss valueCoeff mb = specValueLoss valueCoeff mb.returns mb.values ∧
    entropyLoss mb = specEntropyLoss mb.logProbs ∧
    actorLoss entropyCoeff mb = policyLoss mb + entropyCoeff * entropyLoss mb ∧
    ((∀ x ∈ mb.advantages, x = 0) → policyLoss mb = 0) := by
  refine ⟨rfl, rfl, rfl, rfl, fun hadv => ?_⟩
  simp only [policyLoss, torchMean]
  rw [sum_zipWith_mul_zero mb.advantages mb.logProbs hadv]
  simp

theorem a2c_update_policy_losses_witness :
    (∀ x ∈ (Minibatch.mk [0, 0] [1, 2] [3, 5] [4, 4]).advantages, x = 0) ∧
    (policyLoss (Minibatch.mk [0, 0] [1, 2] [3, 5] [4, 4]) =
       specPolicyLoss [0, 0] [1, 2] ∧
     valueLoss 1 (Minibatch.mk [0, 0] [1, 2] [3, 5] [4, 4]) =
       specValueLoss 1 [3, 5] [4, 4] ∧
     entropyLoss (Minibatch.mk [0, 0] [1, 2] [3, 5] [4, 4]) =
       specEntropyLoss [1, 2] ∧
     actorLoss 1 (Minibatch.mk [0, 0] [1, 2] [3, 5] [4, 4]) =
       policyLoss (Minibatch.mk [0, 0] [1, 2] [3, 5] [4, 4]) +
         1 * entropyLoss (Minibatch.mk [0, 0] [1, 2] [3, 5] [4, 4]) ∧
     policyLoss (Minibatch.mk [0, 0] [1, 2] [3, 5] [4, 4]) = 0) :=
  ⟨by intro x hx; simp at hx; exact hx,
   by
    obtain ⟨h1, h2, h3, h4, h5⟩ :=
      a2c_update_policy_losses 1 1 (Minibatch.mk [0, 0] [1, 2] [3, 5] [4, 4])
    exact ⟨h1, h2, h3, h4, h5 (by intro x hx; simp at hx; exact hx)⟩⟩

/-- C4: contrary to the claim, `A2C.select_action` passes the literal
`deterministic=False` to `get_action`, so with `deterministic = true` it
still returns the sampled action, not the distribution's mode, while the
value and log-probability parts of the returned triple behave as claimed. -/
theorem a2c_select_action_ignores_deterministic :
    (a2cSelectAction exAC () true).1 = exAC.sample () ∧
    (a2cSelectAction exAC () true).1 ≠ getAction exAC () true ∧
    getAction exAC () true = exAC.mode () ∧
    (a2cSelectAction exAC () true).2.1 = exAC.value () ∧
    (a2cSelectAction exAC () true).2.2 =
      exAC.logProb () ((a2cSelectAction exAC () true).1) :=
  ⟨rfl, by decide, rfl, rfl, rfl⟩

/-- C5: starting from all-zero quality and counts, after the calls of
`ops`, the count at `(c, a)` is the number of calls addressed to `(c, a)`
and the quality there is the exact arithmetic mean of their rewards,
whatever the interleaving with other pairs. -/
theorem ucb_incremental_mean (nc na : ℕ) (conf : ℚ)
    (ops : List (ℕ × ℕ × ℚ)) (c a : ℕ)
    (h : 0 < (hits c a ops).length) :
    (runUpdates (initState nc na conf) ops).counts c a =
      (hits c a ops).length ∧
    (runUpdates (initState nc na conf) ops).quality c a =
      (hits c a ops).sum / ((hits c a ops).length : ℚ) := by
  obtain ⟨hc, hq⟩ := runUpdates_cell c a ops (initState nc na conf)
  have h0c : (initState nc na conf).counts c a = 0 := rfl
  have h0q : (initState nc na conf).quality c a = 0 := rfl
  rw [h0c] at hc
  rw [h0c, h0q] at hq
  simp only [Nat.cast_zero, zero_add, zero_mul] at hq
  have hlen : (((hits c a ops).length : ℚ)) ≠ 0 :=
    Nat.cast_ne_zero.mpr h.ne'
  exact ⟨by simpa using hc, (eq_div_iff hlen).mpr hq⟩

theorem ucb_incremental_mean_witness :
    0 < (hits 0 0 [(0, 0, 1), (1, 1, 5), (0, 0, 2)]).length ∧
    ((runUpdates (initState 2 2 1) [(0, 0, 1), (1, 1, 5), (0, 0, 2)]).counts 0 0 =
       (hits 0 0 [(0, 0, 1), (1, 1, 5), (0, 0, 2)]).length ∧
     (runUpdates (initState 2 2 1) [(0, 0, 1), (1, 1, 5), (0, 0, 2)]).quality 0 0 =
       (hits 0 0 [(0, 0, 1), (1, 1, 5), (0, 0, 2)]).sum /
         ((hits 0 0 [(0, 0, 1), (1, 1, 5), (0, 0, 2)]).length : ℚ)) :=
  ⟨by decide, ucb_incremental_mean 2 2 1 [(0, 0, 1), (1, 1, 5), (0, 0, 2)] 0 0 (by decide)⟩

/-- C6: every `update_params` call with an in-range action leaves the
cumulative regret no smaller than before, the regret history records the
new regret, and along any in-range trajectory from a fresh policy the
regret history is a nondecreasing sequence. -/
theorem ucb_regret_monotone (nc na : ℕ) (conf : ℚ)
    (ops : List (ℕ × ℕ × ℚ)) (hops : ∀ p ∈ ops, p.2.1 < na)
    (s : UCBState) (c a : ℕ) (r : ℚ) (ha : a < s.numArms) :
    s.regret ≤ (updateParams s c a r).regret ∧
    (updateParams s c a r).regretHist =
      s.regretHist ++ [(updateParams s c a r).regret] ∧
    List.Chain' (fun u v => u ≤ v)
      ((runUpdates (initState nc na conf) ops).regretHist) := by
  refine ⟨regret_step_mono s c a r ha, updateParams_regretHist s c a r, ?_⟩
  have hch := regret_chain_aux ops (initState nc na conf)
    (fun p hp => hops p hp) (by simp [initState])
  exact (List.chain'_append.mp hch).1

theorem ucb_regret_monotone_witness :
    (∀ p ∈ [((0 : ℕ), (0 : ℕ), (1 : ℚ)), (0, 1, 0)], p.2.1 < 2) ∧
    1 < exState.numArms ∧
    (exState.regret ≤ (updateParams exState 0 1 3).regret ∧
     (updateParams exState 0 1 3).regretHist =
       exState.regretHist ++ [(updateParams exState 0 1 3).regret] ∧
     List.Chain' (fun u v => u ≤ v)
       ((runUpdates (initState 1 2 1) [(0, 0, 1), (0, 1, 0)]).regretHist)) :=
  ⟨by decide, by decide,
   ucb_regret_monotone 1 2 1 [(0, 0, 1), (0, 1, 0)] (by decide)
     exState 0 1 3 (by decide)⟩

/-- C7: one `update_params(c, a, r)` call increments `counts[c,a]` by
exactly 1, leaves every other counts entry and every quality entry other
than `quality[c,a]` unchanged, and keeps both shape parameters. -/
theorem ucb_update_params_frame (s : UCBState) (c a : ℕ) (r : ℚ)
    (cOther aOther : ℕ) (h : ¬(cOther = c ∧ aOther = a)) :
    (updateParams s c a r).counts c a = s.counts c a + 1 ∧
    (updateParams s c a r).counts cOther aOther = s.counts cOther aOther ∧
    (updateParams s c a r).quality cOther aOther = s.quality cOther aOther ∧
    (updateParams s c a r).numContexts = s.numContexts ∧
    (updateParams s c a r).numArms = s.numArms :=
  ⟨updateParams_counts_self s c a r,
   updateParams_counts_other s c a r cOther aOther h,
   updateParams_quality_other s c a r cOther aOther h,
   rfl, rfl⟩

theorem ucb_update_params_frame_witness :
    ¬((1 : ℕ) = 0 ∧ (2 : ℕ) = 0) ∧
    ((updateParams exState 0 0 7).counts 0 0 = exState.counts 0 0 + 1 ∧
     (updateParams exState 0 0 7).counts 1 2 = exState.counts 1 2 ∧
     (updateParams exState 0 0 7).quality 1 2 = exState.quality 1 2 ∧
     (updateParams exState 0 0 7).numContexts = exState.numContexts ∧
     (updateParams exState 0 0 7).numArms = exState.numArms) :=
  ⟨by decide, ucb_update_params_frame exState 0 0 7 1 2 (by decide)⟩

/-- C8: the value-model builder returns a network of input width
`state_dim` and output width 1 for `"V"`, input width
`state_dim + action_dim` and output width 1 for `"Qsa"`, input width
`state_dim` and output width `action_dim` for `"Qs"`, and fails
(`ValueError`) on every other tag. -/
theorem get_val_model_spec (stateDim actionDim : ℕ) (hidden : List ℕ)
    (valType : String)
    (hne : valType ≠ "V" ∧ valType ≠ "Qsa" ∧ valType ≠ "Qs") :
    (∃ l, getValModel "V" stateDim hidden actionDim = some l ∧
      l.head? = some stateDim ∧ l.getLast? = some 1) ∧
    (∃ l, getValModel "Qsa" stateDim hidden actionDim = some l ∧
      l.head? = some (stateDim + actionDim) ∧ l.getLast? = some 1) ∧
    (∃ l, getValModel "Qs" stateDim hidden actionDim = some l ∧
      l.head? = some stateDim ∧ l.getLast? = some actionDim) ∧
    getValModel valType stateDim hidden actionDim = none := by
  refine ⟨⟨[stateDim] ++ hidden ++ [1], by simp [getValModel], by simp,
      by rw [List.getLast?_concat]⟩,
    ⟨[stateDim + actionDim] ++ hidden ++ [1], by simp [getValModel], by simp,
      by rw [List.getLast?_concat]⟩,
    ⟨[stateDim] ++ hidden ++ [actionDim], by simp [getValModel], by simp,
      by rw [List.getLast?_concat]⟩, ?_⟩
  simp [getValModel, hne.1, hne.2.1, hne.2.2]

theorem get_val_model_spec_witness :
    (("views" : String) ≠ "V" ∧ ("views" : String) ≠ "Qsa" ∧
      ("views" : String) ≠ "Qs") ∧
    ((∃ l, getValModel "V" 4 [32, 32] 2 = some l ∧
       l.head? = some 4 ∧ l.getLast? = some 1) ∧
     (∃ l, getValModel "Qsa" 4 [32, 32] 2 = some l ∧
       l.head? = some (4 + 2) ∧ l.getLast? = some 1) ∧
     (∃ l, getValModel "Qs" 4 [32, 32] 2 = some l ∧
       l.head? = some 4 ∧ l.getLast? = some 2) ∧
     getValModel "views" 4 [32, 32] 2 = none) :=
  ⟨by decide, get_val_model_spec 4 2 [32, 32] "views" (by decide)⟩

/-- C9: with one context, two arms and confidence 1, updating `(0,0)` with
reward 1 and then `(0,1)` with reward 0 gives quality `[1, 0]`, counts
`[1, 1]`, cumulative regret 1, and regret history `[0, 1]` — the first
call's regret delta is 0. -/
theorem ucb_doc_scenario :
    ucbScenario.quality 0 0 = 1 ∧ ucbScenario.quality 0 1 = 0 ∧
    ucbScenario.counts 0 0 = 1 ∧ ucbScenario.counts 0 1 = 1 ∧
    ucbScenario.regret = 1 ∧ ucbScenario.regretHist = [0, 1] := by
  norm_num [ucbScenario, updateParams, initState, rowMax]

/-- C10: `select_action` leaves quality, counts, regret, reward history and
regret history untouched; its only mutation is appending the single pair
`(context, action)` to the action history. -/
theorem ucb_select_action_frame (s : UCBState) (c t : ℕ) :
    (selectActionStep s c t).2.quality = s.quality ∧
    (selectActionStep s c t).2.counts = s.counts ∧
    (selectActionStep s c t).2.regret = s.regret ∧
    (selectActionStep s c t).2.rewardHist = s.rewardHist ∧
    (selectActionStep s c t).2.regretHist = s.regretHist ∧
    (selectActionStep s c t).2.actionHist =
      s.actionHist ++ [(c, (selectActionStep s c t).1)] ∧
    (selectActionStep s c t).2.numContexts = s.numContexts ∧
    (selectActionStep s c t).2.numArms = s.numArms :=
  ⟨rfl, rfl, rfl, rfl, rfl, rfl, rfl, rfl⟩

end Genrl
